import Mathlib

/-!
Shallow embedding of the custom-field resolution layer and the surrounding
dispatcher/startup logic of the CiviCRM MCP server
(src/src/index.ts, src/src/index_enhanced.ts, src/unnamed/part_000).

JavaScript `Map` objects are modelled as association lists with
insertion-ordered overwrite-in-place semantics (`mapSet` / `mapGet`),
JS string `.toLowerCase()` as a character-wise ASCII lowering (`jsLower`),
the network fetch inside `loadCustomFields` as an `Option (List FieldRec)`
parameter (`none` models the request throwing, `some fields` a response
whose `values` array is `fields`), and thrown JS errors as `Except`.
-/

/-- Embedding of JavaScript `s.toLowerCase()` on the ASCII fragment the
resolver manipulates: each character is lowered with `Char.toLower`. -/
def jsLower (s : String) : String :=
  String.mk (s.data.map Char.toLower)

/-- One row of the `CustomField.get` API response, holding exactly the
columns selected by `loadCustomFields`: `id`, `name`, `label`,
`custom_group_id.name`, `custom_group_id.extends`, `data_type`, `html_type`. -/
structure FieldRec where
  id : Nat
  name : String
  label : String
  groupName : String
  extendsEnt : String
  dataType : String
  htmlType : String
deriving DecidableEq, Repr

/-- The metadata record stored in `customFieldsCache` for one field
(the object literal built inside the `loadCustomFields` loop). -/
structure FieldMeta where
  id : Nat
  name : String
  label : String
  group : String
  extendsEnt : String
  dataType : String
  htmlType : String
deriving DecidableEq, Repr

/-- Insertion-ordered string-keyed map, the model of a JS `Map` (and of a
JS object used as a dictionary): an association list with unique keys. -/
abbrev StrMap (α : Type) := List (String × α)

/-- Model of `Map.prototype.get` / JS object property read: the value at
the key, if present. -/
def mapGet {α : Type} : StrMap α → String → Option α
  | [], _ => none
  | (k', v') :: rest, k => if k' = k then some v' else mapGet rest k

/-- Model of `Map.prototype.set` / JS object property write: overwrite in
place when the key exists (keeping its insertion position), otherwise
append at the end. -/
def mapSet {α : Type} : StrMap α → String → α → StrMap α
  | [], k, v => [(k, v)]
  | (k', v') :: rest, k, v =>
      if k' = k then (k, v) :: rest else (k', v') :: mapSet rest k v

/-- The mutable state of the `CiviCRMClient` resolver: the
`customFieldsCache` map (composite API name to metadata) and the
`customFieldMappings` alias index (case-folded label or short name to
composite API name). -/
structure ClientState where
  customFieldsCache : StrMap FieldMeta
  customFieldMappings : StrMap String
deriving DecidableEq, Repr

/-- Both caches start empty at process start. -/
def ClientState.empty : ClientState :=
  { customFieldsCache := [], customFieldMappings := [] }

/-- The composite API name `` `${groupName}.${fieldName}` `` derived for a
fetched field row. -/
def compositeApiName (f : FieldRec) : String :=
  f.groupName ++ "." ++ f.name

/-- The body of the `for (const field of customFields)` loop in
`loadCustomFields`: write the case-folded label and the case-folded short
name into `customFieldMappings` (label first, then name), and store the
metadata record in `customFieldsCache` under the composite API name. -/
def processField (st : ClientState) (f : FieldRec) : ClientState :=
  let apiFieldName := compositeApiName f
  { customFieldMappings :=
      mapSet (mapSet st.customFieldMappings (jsLower f.label) apiFieldName)
        (jsLower f.name) apiFieldName,
    customFieldsCache :=
      mapSet st.customFieldsCache apiFieldName
        { id := f.id, name := f.name, label := f.label, group := f.groupName,
          extendsEnt := f.extendsEnt, dataType := f.dataType,
          htmlType := f.htmlType } }

/-- Embedding of `loadCustomFields`. The `fetched` parameter stands for the
outcome of the `CustomField.get` request: `none` models the request
throwing, in which case the `catch` block logs and swallows the error and
the state is returned unchanged; `some fields` models a successful
response, whose rows are folded into the two caches in order. -/
def loadCustomFields (fetched : Option (List FieldRec)) (st : ClientState) :
    ClientState :=
  match fetched with
  | none => st
  | some fields => fields.foldl processField st

/-- Embedding of `getCustomFieldApiName`: look the case-folded argument up
in the alias index; `Map.get` returning `undefined` (`|| null`) becomes
`none`. -/
def getCustomFieldApiName (st : ClientState) (humanName : String) :
    Option String :=
  mapGet st.customFieldMappings (jsLower humanName)

/-- Embedding of `getCustomFieldsForEntity`: the literal loop that walks
`customFieldsCache` in insertion order and pushes the entries whose
`extends` attribute equals the requested entity type. -/
def getCustomFieldsForEntity (st : ClientState) (entityType : String) :
    List (String × FieldMeta) :=
  st.customFieldsCache.foldl
    (fun fields p =>
      if p.2.extendsEnt = entityType then fields ++ [p] else fields) []

/-- The lazy-load guard `if (customFieldsCache.size === 0) await
loadCustomFields()` that precedes every resolver use. The second component
counts how many network metadata fetches the call performs (0 or 1). -/
def ensureLoaded (fetched : Option (List FieldRec)) (st : ClientState) :
    ClientState × Nat :=
  if st.customFieldsCache.length = 0 then (loadCustomFields fetched st, 1)
  else (st, 0)

/-- Two consecutive guarded calls; the second component is the total number
of network metadata fetches performed over both calls. -/
def ensureLoadedTwice (r1 r2 : Option (List FieldRec)) (st : ClientState) :
    ClientState × Nat :=
  let first := ensureLoaded r1 st
  let second := ensureLoaded r2 first.1
  (second.1, first.2 + second.2)

/-- One iteration of the split loop in `createContactWithCustomFields`:
a key that resolves is written into the custom map under its composite API
name, any other key is written into the standard map under itself. -/
def splitStep {α : Type} (st : ClientState) (acc : StrMap α × StrMap α)
    (kv : String × α) : StrMap α × StrMap α :=
  match getCustomFieldApiName st kv.1 with
  | some c => (acc.1, mapSet acc.2 c kv.2)
  | none => (mapSet acc.1 kv.1 kv.2, acc.2)

/-- The standard/custom partition performed by
`createContactWithCustomFields` over `Object.entries(contactData)`:
returns `(standardFields, customFields)`. -/
def splitStandardAndCustom {α : Type} (st : ClientState)
    (contactData : StrMap α) : StrMap α × StrMap α :=
  contactData.foldl (splitStep st) ([], [])

/-- One iteration of the nested `custom_fields` loop shared by the
`create_contact`, `update_contact`, `create_activity` and
`create_contribution` handlers: a resolving key is written under its
composite API name, a non-resolving key is written under its original key
with its original value. -/
def applyCustomFieldsStep {α : Type} (st : ClientState) (acc : StrMap α)
    (kv : String × α) : StrMap α :=
  match getCustomFieldApiName st kv.1 with
  | some c => mapSet acc c kv.2
  | none => mapSet acc kv.1 kv.2

/-- The whole nested `custom_fields` loop: fold the entries of the
`custom_fields` object into the already-built `processedData` map. -/
def applyCustomFields {α : Type} (st : ClientState) (processedData : StrMap α)
    (customFields : StrMap α) : StrMap α :=
  customFields.foldl (applyCustomFieldsStep st) processedData

/-- The two error kinds the dispatcher distinguishes. -/
inductive McpErrorCode where
  | MethodNotFound
  | InternalError
deriving DecidableEq, Repr

/-- A protocol error surfaced to the host: an error kind and a message. -/
structure McpError where
  code : McpErrorCode
  message : String
deriving DecidableEq, Repr

/-- An error thrown inside the `CallToolRequestSchema` handler body: either
a plain `Error` (e.g. a per-call remote failure out of `apiV4`) or an
`McpError` (the `default` branch throws one with kind `MethodNotFound`). -/
inductive ThrownError where
  | plain (message : String)
  | mcp (code : McpErrorCode) (message : String)
deriving DecidableEq, Repr

/-- The message carried by a thrown error (the `.message` the catch block
interpolates). -/
def ThrownError.msg : ThrownError → String
  | .plain m => m
  | .mcp _ m => m

/-- The `try` body of the `CallToolRequestSchema` handler, as a function of
the registered tool table. A registered tool either returns response text
or throws a plain error (per-call remote failure); an unregistered name
hits the `default` branch, which throws
`McpError(ErrorCode.MethodNotFound, ...)`. -/
def callToolBody (handlers : StrMap (Except String String)) (name : String) :
    Except ThrownError String :=
  match mapGet handlers name with
  | some (Except.ok text) => Except.ok text
  | some (Except.error m) => Except.error (ThrownError.plain m)
  | none =>
      Except.error
        (ThrownError.mcp McpErrorCode.MethodNotFound ("Unknown tool: " ++ name))

/-- The whole handler including its `catch` block: every error thrown by
the body — the `MethodNotFound` one included — is re-wrapped as
`McpError(ErrorCode.InternalError, "Tool execution failed: " + message)`. -/
def callToolHandler (handlers : StrMap (Except String String))
    (name : String) : Except McpError String :=
  match callToolBody handlers name with
  | Except.ok t => Except.ok t
  | Except.error e =>
      Except.error
        { code := McpErrorCode.InternalError,
          message := "Tool execution failed: " ++ e.msg }

/-- Model of the JS expression `process.env.X || dflt`: a missing variable
and an empty string both yield the default. -/
def envOr (v : Option String) (dflt : String) : String :=
  match v with
  | none => dflt
  | some s => if s = "" then dflt else s

/-- Startup check of `src/src/index.ts`: the process exits (status 1) when
any of `CIVICRM_BASE_URL`, `CIVICRM_API_KEY`, `CIVICRM_SITE_KEY` is missing
or empty (`if (!baseUrl || !apiKey || !siteKey) process.exit(1)`). Returns
`true` when the process exits before serving. -/
def indexStartupExits (envBase envKey envSite : Option String) : Bool :=
  envOr envBase "" = "" ∨ envOr envKey "" = "" ∨ envOr envSite "" = ""

/-- Startup check of `src/src/index_enhanced.ts` and of the unnamed server
file: the base URL defaults to a placeholder, only a missing or empty
`CIVICRM_API_KEY` is fatal (`if (!CIVICRM_API_KEY) process.exit(1)`).
Returns `true` when the process exits before serving. -/
def enhancedStartupExits (envBase envKey envSite : Option String) : Bool :=
  envOr envKey "" = ""

/-- The example field of the spec: label "Volunteer Interest", short name
"Interest_Area", group "Volunteer_Info", extending Contact. -/
def volunteerField : FieldRec :=
  { id := 1, name := "Interest_Area", label := "Volunteer Interest",
    groupName := "Volunteer_Info", extendsEnt := "Contact",
    dataType := "String", htmlType := "Select" }

/-- Resolver state after loading exactly the spec's example field. -/
def volunteerState : ClientState :=
  loadCustomFields (some [volunteerField]) ClientState.empty

/-! ### Helper lemmas on the map model and on case folding -/

theorem mapGet_mapSet_self {α : Type} (m : StrMap α) (k : String) (v : α) :
    mapGet (mapSet m k v) k = some v := by
  induction m with
  | nil => simp [mapSet, mapGet]
  | cons p rest ih =>
      by_cases h : p.1 = k
      · simp [mapSet, h, mapGet]
      · simp [mapSet, h, mapGet, ih]

theorem mapGet_mapSet_ne {α : Type} (m : StrMap α) {k k' : String} (v : α)
    (h : k' ≠ k) : mapGet (mapSet m k v) k' = mapGet m k' := by
  induction m with
  | nil =>
      simp [mapSet, mapGet]
      exact fun hk => h hk.symm
  | cons p rest ih =>
      by_cases hp : p.1 = k
      · subst hp
        have hne : p.1 ≠ k' := fun hk => h hk.symm
        simp [mapSet, mapGet, hne]
      · by_cases hp' : p.1 = k'
        · simp [mapSet, hp, mapGet, hp', h]
        · simp [mapSet, hp, mapGet, hp', ih]

theorem mapSet_ne_nil {α : Type} (m : StrMap α) (k : String) (v : α) :
    mapSet m k v ≠ [] := by
  cases m with
  | nil => simp [mapSet]
  | cons p rest =>
      by_cases h : p.1 = k <;> simp [mapSet, h]

theorem mapGet_eq_none_of_forall {α : Type} (m : StrMap α) (k : String)
    (h : ∀ p ∈ m, p.1 ≠ k) : mapGet m k = none := by
  induction m with
  | nil => rfl
  | cons p rest ih =>
      have hp : p.1 ≠ k := h p (by simp)
      simp [mapGet, hp]
      exact ih (fun q hq => h q (by simp [hq]))

theorem mapSet_of_forall_ne {α : Type} (m : StrMap α) (k : String) (v : α)
    (h : ∀ p ∈ m, p.1 ≠ k) : mapSet m k v = m ++ [(k, v)] := by
  induction m with
  | nil => rfl
  | cons p rest ih =>
      have hp : p.1 ≠ k := h p (by simp)
      simp [mapSet, hp]
      exact ih (fun q hq => h q (by simp [hq]))

theorem toNat_ofNat_of_valid {n : Nat} (h : n.isValidChar) :
    (Char.ofNat n).toNat = n := by
  rw [Char.ofNat, dif_pos h]
  rfl

theorem Char.toLower_toLower (c : Char) :
    Char.toLower (Char.toLower c) = Char.toLower c := by
  unfold Char.toLower
  by_cases h : c.toNat ≥ 65 ∧ c.toNat ≤ 90
  · rw [if_pos h]
    have hv : Nat.isValidChar (c.toNat + 32) := Or.inl (by omega)
    rw [toNat_ofNat_of_valid hv, if_neg (by omega)]
  · rw [if_neg h, if_neg h]

theorem jsLower_jsLower (s : String) : jsLower (jsLower s) = jsLower s := by
  unfold jsLower
  apply congrArg String.mk
  rw [List.map_map]
  exact List.map_congr_left (fun c _ => Char.toLower_toLower c)

theorem load_mappings_avoid (fs : List FieldRec) (st : ClientState)
    (k : String)
    (h : ∀ f ∈ fs, jsLower f.label ≠ k ∧ jsLower f.name ≠ k) :
    mapGet (fs.foldl processField st).customFieldMappings k
      = mapGet st.customFieldMappings k := by
  induction fs generalizing st with
  | nil => rfl
  | cons f rest ih =>
      have hf := h f (by simp)
      rw [List.foldl_cons, ih _ (fun g hg => h g (by simp [hg]))]
      show mapGet
        (mapSet (mapSet st.customFieldMappings (jsLower f.label)
          (compositeApiName f)) (jsLower f.name) (compositeApiName f)) k
        = mapGet st.customFieldMappings k
      rw [mapGet_mapSet_ne _ _ (Ne.symm hf.2), mapGet_mapSet_ne _ _ (Ne.symm hf.1)]

theorem processField_cache_ne_nil (st : ClientState) (f : FieldRec) :
    (processField st f).customFieldsCache ≠ [] :=
  mapSet_ne_nil _ _ _

theorem cache_stay_ne_nil : ∀ (fs : List FieldRec) (st : ClientState),
    st.customFieldsCache ≠ [] →
    (fs.foldl processField st).customFieldsCache ≠ []
  | [], _, h => h
  | f :: rest, st, _ => by
      rw [List.foldl_cons]
      exact cache_stay_ne_nil rest _ (processField_cache_ne_nil st f)

theorem load_cache_ne_nil (fs : List FieldRec) (st : ClientState)
    (h : fs ≠ []) :
    (loadCustomFields (some fs) st).customFieldsCache ≠ [] := by
  match fs, h with
  | f :: rest, _ =>
      show ((f :: rest).foldl processField st).customFieldsCache ≠ []
      rw [List.foldl_cons]
      exact cache_stay_ne_nil rest _ (processField_cache_ne_nil st f)

theorem split_empty_aux {α : Type} :
    ∀ (data : StrMap α) (acc : StrMap α × StrMap α),
      (data.map Prod.fst).Nodup →
      (∀ p ∈ data, ∀ q ∈ acc.1, q.1 ≠ p.1) →
      data.foldl (splitStep ClientState.empty) acc = (acc.1 ++ data, acc.2) := by
  intro data
  induction data with
  | nil => intro acc _ _; simp
  | cons kv rest ih =>
      intro acc hn hd
      obtain ⟨k, v⟩ := kv
      rw [List.map_cons, List.nodup_cons] at hn
      have hstep : splitStep ClientState.empty acc (k, v)
          = (mapSet acc.1 k v, acc.2) := by
        simp [splitStep, getCustomFieldApiName, ClientState.empty, mapGet]
      have hset : mapSet acc.1 k v = acc.1 ++ [(k, v)] :=
        mapSet_of_forall_ne _ _ _ (fun q hq => hd (k, v) (by simp) q hq)
      rw [List.foldl_cons, hstep]
      have hd' : ∀ p ∈ rest, ∀ q ∈ (mapSet acc.1 k v, acc.2).1, q.1 ≠ p.1 := by
        intro p hp q hq
        rw [hset] at hq
        rcases List.mem_append.mp hq with hql | hqr
        · exact hd p (by simp [hp]) q hql
        · have : q = (k, v) := by simpa using hqr
          subst this
          intro he
          exact hn.1 (he ▸ List.mem_map_of_mem Prod.fst hp)
      rw [ih (mapSet acc.1 k v, acc.2) hn.2 hd', hset, List.append_assoc,
        List.singleton_append]

theorem foldl_push_filter {β : Type} (P : β → Prop) [DecidablePred P] :
    ∀ (l : List β) (acc : List β),
      l.foldl (fun a x => if P x then a ++ [x] else a) acc
        = acc ++ l.filter (fun x => decide (P x))
  | [], acc => by simp
  | x :: rest, acc => by
      rw [List.foldl_cons]
      by_cases h : P x
      · rw [if_pos h, foldl_push_filter P rest (acc ++ [x])]
        simp [List.filter_cons, h]
      · rw [if_neg h, foldl_push_filter P rest acc]
        simp [List.filter_cons, h]

/-! ### Claim theorems -/

/-- C1: after `loadCustomFields` processes a custom field F with label L,
short name N and owning group G, resolving the case-folded label and
resolving the case-folded short name both return F's composite API name
`G.N`; and `getCustomFieldApiName` is case-insensitive in its argument: it
agrees on any argument and its case-folded form. -/
theorem C1_alias_index_resolution :
    (∀ (st : ClientState) (f : FieldRec),
        getCustomFieldApiName (processField st f) (jsLower f.label)
            = some (compositeApiName f) ∧
        getCustomFieldApiName (processField st f) (jsLower f.name)
            = some (compositeApiName f)) ∧
    (∀ (st : ClientState) (s : String),
        getCustomFieldApiName st s = getCustomFieldApiName st (jsLower s)) := by
  constructor
  · intro st f
    constructor
    · show mapGet
        (mapSet (mapSet st.customFieldMappings (jsLower f.label)
          (compositeApiName f)) (jsLower f.name) (compositeApiName f))
        (jsLower (jsLower f.label)) = some (compositeApiName f)
      rw [jsLower_jsLower]
      by_cases h : jsLower f.name = jsLower f.label
      · rw [← h]
        exact mapGet_mapSet_self _ _ _
      · rw [mapGet_mapSet_ne _ _ (Ne.symm h)]
        exact mapGet_mapSet_self _ _ _
    · show mapGet
        (mapSet (mapSet st.customFieldMappings (jsLower f.label)
          (compositeApiName f)) (jsLower f.name) (compositeApiName f))
        (jsLower (jsLower f.name)) = some (compositeApiName f)
      rw [jsLower_jsLower]
      exact mapGet_mapSet_self _ _ _
  · intro st s
    show mapGet st.customFieldMappings (jsLower s)
        = mapGet st.customFieldMappings (jsLower (jsLower s))
    rw [jsLower_jsLower]

/-- C2: the split loop of `createContactWithCustomFields` partitions the
input key/value map: a key that resolves to a composite API name is
written into the custom map under that name, any other key is written into
the standard map under its original key; on the spec's example input with
the "Volunteer Interest" field loaded it yields exactly the stated maps;
and with zero loaded fields every key goes into the standard map. -/
theorem C2_split_standard_and_custom :
    (∀ (st : ClientState) (acc : StrMap String × StrMap String)
        (k v c : String),
        getCustomFieldApiName st k = some c →
        splitStep st acc (k, v) = (acc.1, mapSet acc.2 c v)) ∧
    (∀ (st : ClientState) (acc : StrMap String × StrMap String)
        (k v : String),
        getCustomFieldApiName st k = none →
        splitStep st acc (k, v) = (mapSet acc.1 k v, acc.2)) ∧
    splitStandardAndCustom volunteerState
        [("Volunteer Interest", "Environmental"), ("first_name", "Jane")]
      = ([("first_name", "Jane")],
         [("Volunteer_Info.Interest_Area", "Environmental")]) ∧
    (∀ (data : StrMap String),
        (data.map Prod.fst).Nodup →
        splitStandardAndCustom ClientState.empty data = (data, [])) := by
  refine ⟨?_, ?_, by decide, ?_⟩
  · intro st acc k v c h
    simp [splitStep, h]
  · intro st acc k v h
    simp [splitStep, h]
  · intro data hn
    show data.foldl (splitStep ClientState.empty) ([], []) = (data, [])
    rw [split_empty_aux data ([], []) hn (by intro p _ q hq; simp at hq)]
    simp

/-- C2 witness: the split evaluated at the spec's concrete inputs. -/
theorem C2_split_witness :
    splitStep volunteerState ([], []) ("Volunteer Interest", "Environmental")
        = ([], [("Volunteer_Info.Interest_Area", "Environmental")]) ∧
    splitStep volunteerState ([], []) ("first_name", "Jane")
        = ([("first_name", "Jane")], []) ∧
    splitStandardAndCustom ClientState.empty [("a", "1"), ("b", "2")]
        = ([("a", "1"), ("b", "2")], []) :=
  ⟨C2_split_standard_and_custom.1 volunteerState ([], [])
      "Volunteer Interest" "Environmental" "Volunteer_Info.Interest_Area"
      (by decide),
   C2_split_standard_and_custom.2.1 volunteerState ([], [])
      "first_name" "Jane" (by decide),
   C2_split_standard_and_custom.2.2.2 [("a", "1"), ("b", "2")] (by decide)⟩

/-- C3 counterexample: starting from an empty resolver, a first guarded
call whose metadata fetch succeeds but returns zero custom fields leaves
the cache empty, so a second guarded call performs a second network fetch:
two fetches, not exactly one, with no intervening failure. -/
theorem C3_counterexample_empty_fetch :
    (ensureLoadedTwice (some []) (some []) ClientState.empty).2 = 2 ∧
    (ensureLoadedTwice (some []) (some []) ClientState.empty).2 ≠ 1 := by
  constructor <;> decide

/-- C3 amended: when the cache already holds at least one entry the guard
is a no-op performing no fetch; and if the first guarded call's successful
fetch returns at least one custom field, the two consecutive guarded calls
perform the network metadata fetch exactly once in total. -/
theorem C3_guard_idempotent_amended :
    (∀ (r : Option (List FieldRec)) (st : ClientState),
        st.customFieldsCache ≠ [] → ensureLoaded r st = (st, 0)) ∧
    (∀ (fs : List FieldRec) (r2 : Option (List FieldRec)) (st : ClientState),
        st.customFieldsCache = [] → fs ≠ [] →
        (ensureLoadedTwice (some fs) r2 st).2 = 1) := by
  constructor
  · intro r st h
    unfold ensureLoaded
    rw [if_neg (fun hl => h (List.length_eq_zero.mp hl))]
  · intro fs r2 st hempty hfs
    have h1 : ensureLoaded (some fs) st = (loadCustomFields (some fs) st, 1) := by
      unfold ensureLoaded
      rw [if_pos (by rw [hempty]; rfl)]
    have h2 : ensureLoaded r2 (loadCustomFields (some fs) st)
        = (loadCustomFields (some fs) st, 0) := by
      unfold ensureLoaded
      rw [if_neg (fun hl =>
        load_cache_ne_nil fs st hfs (List.length_eq_zero.mp hl))]
    unfold ensureLoadedTwice
    rw [h1]
    simp only [h2]

/-- C3 witness: the amended statements evaluated at concrete states. -/
theorem C3_guard_witness :
    ensureLoaded (some []) volunteerState = (volunteerState, 0) ∧
    (ensureLoadedTwice (some [volunteerField]) (some [])
        ClientState.empty).2 = 1 :=
  ⟨C3_guard_idempotent_amended.1 (some []) volunteerState (by decide),
   C3_guard_idempotent_amended.2 [volunteerField] (some [])
      ClientState.empty (by decide) (by decide)⟩

/-- C4: a failed metadata fetch is swallowed — `loadCustomFields` returns
(it is a total function in the embedding) and leaves the resolver state
exactly as it was — and, when the caches were empty before the failed
load, `getCustomFieldsForEntity` returns the empty collection for every
entity type. -/
theorem C4_metadata_failure_degrades :
    (∀ st : ClientState, loadCustomFields none st = st) ∧
    (∀ st : ClientState, st.customFieldsCache = [] →
        ∀ T : String, getCustomFieldsForEntity (loadCustomFields none st) T = []) := by
  constructor
  · intro st
    rfl
  · intro st h T
    show getCustomFieldsForEntity st T = []
    unfold getCustomFieldsForEntity
    rw [h]
    rfl

/-- C4 witness: the failed load evaluated at concrete states. -/
theorem C4_metadata_failure_witness :
    loadCustomFields none volunteerState = volunteerState ∧
    getCustomFieldsForEntity (loadCustomFields none ClientState.empty)
        "Contact" = [] :=
  ⟨C4_metadata_failure_degrades.1 volunteerState,
   C4_metadata_failure_degrades.2 ClientState.empty rfl "Contact"⟩

/-- C5: `getCustomFieldApiName` is total and never throws: on any input
whose case-folded form matches no loaded label or short name it returns
`none`, and on the empty mapping cache it returns `none` for every input. -/
theorem C5_resolve_unknown_returns_none :
    (∀ (fs : List FieldRec) (s : String),
        (∀ f ∈ fs, jsLower f.label ≠ jsLower s ∧ jsLower f.name ≠ jsLower s) →
        getCustomFieldApiName (loadCustomFields (some fs) ClientState.empty) s
          = none) ∧
    (∀ s : String, getCustomFieldApiName ClientState.empty s = none) := by
  constructor
  · intro fs s h
    show mapGet
      ((fs.foldl processField ClientState.empty)).customFieldMappings
      (jsLower s) = none
    rw [load_mappings_avoid fs ClientState.empty (jsLower s) h]
    rfl
  · intro s
    rfl

/-- C5 witness: unknown names resolved against a loaded and an empty cache. -/
theorem C5_resolve_unknown_witness :
    getCustomFieldApiName
        (loadCustomFields (some [volunteerField]) ClientState.empty)
        "anything" = none ∧
    getCustomFieldApiName ClientState.empty "anything" = none :=
  ⟨C5_resolve_unknown_returns_none.1 [volunteerField] "anything" (by decide),
   C5_resolve_unknown_returns_none.2 "anything"⟩

/-- C6: label collisions follow last-loaded-wins. Loading, in order, a
field labelled "Status" in group "GroupA" and then a field labelled
"Status" in group "GroupB", resolving "status" returns GroupB's composite
API name, whatever the short names and other attributes of the two fields
are. -/
theorem C6_label_collision_last_loaded_wins :
    ∀ (idA idB : Nat) (nA nB eA eB dA dB hA hB : String),
      getCustomFieldApiName
        (loadCustomFields (some
          [{ id := idA, name := nA, label := "Status", groupName := "GroupA",
             extendsEnt := eA, dataType := dA, htmlType := hA },
           { id := idB, name := nB, label := "Status", groupName := "GroupB",
             extendsEnt := eB, dataType := dB, htmlType := hB }])
          ClientState.empty) "status"
        = some ("GroupB" ++ "." ++ nB) := by
  intro idA idB nA nB eA eB dA dB hA hB
  have hs : jsLower "status" = "status" := by decide
  have hS : jsLower "Status" = "status" := by decide
  show mapGet
    (mapSet (mapSet (processField ClientState.empty
        { id := idA, name := nA, label := "Status", groupName := "GroupA",
          extendsEnt := eA, dataType := dA,
          htmlType := hA }).customFieldMappings
      (jsLower "Status") ("GroupB" ++ "." ++ nB))
      (jsLower nB) ("GroupB" ++ "." ++ nB))
    (jsLower "status") = some ("GroupB" ++ "." ++ nB)
  rw [hs, hS]
  by_cases h : jsLower nB = "status"
  · rw [← h]
    exact mapGet_mapSet_self _ _ _
  · rw [mapGet_mapSet_ne _ _ (Ne.symm h)]
    exact mapGet_mapSet_self _ _ _

/-- C7: for every entity type T, `getCustomFieldsForEntity` returns
exactly the cached descriptors whose extends attribute equals T — a filter
of the descriptor cache — and the result is a sublist of the cache, so it
preserves cache insertion order (load order), unsorted. -/
theorem C7_fields_for_entity_exact_filter :
    ∀ (st : ClientState) (T : String),
      getCustomFieldsForEntity st T
          = st.customFieldsCache.filter (fun p => decide (p.2.extendsEnt = T))
        ∧ (getCustomFieldsForEntity st T).Sublist st.customFieldsCache := by
  intro st T
  have heq : getCustomFieldsForEntity st T
      = st.customFieldsCache.filter (fun p => decide (p.2.extendsEnt = T)) :=
    foldl_push_filter (fun p : String × FieldMeta => p.2.extendsEnt = T)
      st.customFieldsCache []
  exact ⟨heq, heq ▸ List.filter_sublist _⟩

/-- C8: an unknown operation name makes the `default` branch of the
dispatcher throw the distinct method-not-found error, but the top-level
`catch` re-wraps every thrown error — that one included — into the generic
`InternalError` execution-failure kind, so the host is surfaced
`InternalError`, not `MethodNotFound`. -/
theorem C8_unknown_tool_error_kind :
    callToolBody [] "nonexistent_tool"
        = Except.error (ThrownError.mcp McpErrorCode.MethodNotFound
            "Unknown tool: nonexistent_tool") ∧
    callToolHandler [] "nonexistent_tool"
        = Except.error
            { code := McpErrorCode.InternalError,
              message := "Tool execution failed: Unknown tool: nonexistent_tool" } ∧
    McpErrorCode.InternalError ≠ McpErrorCode.MethodNotFound :=
  ⟨rfl, rfl, by decide⟩

/-- C9 counterexample: with the primary credential and base URL present
but the secondary site credential absent, the startup check of
src/src/index.ts exits (returns `true`), while the enhanced variant
starts; so the secondary credential is not optional in index.ts. -/
theorem C9_counterexample_site_key_fatal :
    indexStartupExits (some "https://example.org") (some "secret-key") none
        = true ∧
    enhancedStartupExits (some "https://example.org") (some "secret-key") none
        = false := by
  constructor <;> decide

/-- C9 amended: the enhanced servers exit exactly when the primary API
credential is missing or empty (site key and base URL optional), while
src/src/index.ts starts only when all three of base URL, API credential
and site credential are present and non-empty. -/
theorem C9_startup_policy_amended :
    (∀ (b k s : Option String),
        enhancedStartupExits b k s = true ↔ envOr k "" = "") ∧
    (∀ (b k s : Option String),
        indexStartupExits b k s = false ↔
          (envOr b "" ≠ "" ∧ envOr k "" ≠ "" ∧ envOr s "" ≠ "")) := by
  constructor
  · intro b k s
    simp [enhancedStartupExits]
  · intro b k s
    simp [indexStartupExits, not_or]

/-- C9 witness: the amended startup policy evaluated at concrete
configurations. -/
theorem C9_startup_policy_witness :
    enhancedStartupExits (some "http://localhost") none (some "sk") = true ∧
    indexStartupExits (some "u") (some "k") (some "s") = false :=
  ⟨(C9_startup_policy_amended.1 (some "http://localhost") none
      (some "sk")).mpr (by decide),
   (C9_startup_policy_amended.2 (some "u") (some "k") (some "s")).mpr
      (by decide)⟩

/-- C10: in the nested `custom_fields` loop shared by the create/update
handlers, a key that does not resolve is forwarded into the value map
unchanged under its original key with its original value (neither dropped
nor an error), and a key that does resolve is written under its composite
API name instead; the end-to-end example evaluates accordingly. -/
theorem C10_nested_custom_fields_forwarding :
    (∀ (st : ClientState) (acc : StrMap String) (k v : String),
        getCustomFieldApiName st k = none →
        applyCustomFieldsStep st acc (k, v) = mapSet acc k v) ∧
    (∀ (st : ClientState) (acc : StrMap String) (k v : String),
        getCustomFieldApiName st k = none →
        mapGet (applyCustomFieldsStep st acc (k, v)) k = some v) ∧
    (∀ (st : ClientState) (acc : StrMap String) (k v c : String),
        getCustomFieldApiName st k = some c →
        applyCustomFieldsStep st acc (k, v) = mapSet acc c v) ∧
    applyCustomFields volunteerState [("first_name", "Jane")]
        [("Volunteer Interest", "Environmental"), ("mystery_key", "X")]
      = [("first_name", "Jane"),
         ("Volunteer_Info.Interest_Area", "Environmental"),
         ("mystery_key", "X")] := by
  refine ⟨?_, ?_, ?_, by decide⟩
  · intro st acc k v h
    simp [applyCustomFieldsStep, h]
  · intro st acc k v h
    simp [applyCustomFieldsStep, h, mapGet_mapSet_self]
  · intro st acc k v c h
    simp [applyCustomFieldsStep, h]

/-- C10 witness: the forwarding behavior at concrete resolved and
unresolved keys. -/
theorem C10_nested_custom_fields_witness :
    applyCustomFieldsStep volunteerState [] ("mystery_key", "X")
        = [("mystery_key", "X")] ∧
    mapGet (applyCustomFieldsStep volunteerState [] ("mystery_key", "X"))
        "mystery_key" = some "X" ∧
    applyCustomFieldsStep volunteerState []
        ("Volunteer Interest", "Environmental")
        = [("Volunteer_Info.Interest_Area", "Environmental")] :=
  ⟨C10_nested_custom_fields_forwarding.1 volunteerState [] "mystery_key" "X"
      (by decide),
   C10_nested_custom_fields_forwarding.2.1 volunteerState [] "mystery_key" "X"
      (by decide),
   C10_nested_custom_fields_forwarding.2.2.1 volunteerState []
      "Volunteer Interest" "Environmental" "Volunteer_Info.Interest_Area"
      (by decide)⟩
